import Mathlib

/-!
Shallow embedding of the TddPy repository (src/tdd/node.py and src/tdd/tdd.py).

Modelling conventions:
 - Machine floats are modelled as exact rationals, represented as a pair of an
   integer numerator and a positive integer denominator (`Frac`).  No gcd
   normalization is performed, so every operation is kernel-computable; value
   level comparisons (`Frac.valEq`, `Frac.le`) are representation independent.
 - A CUDAcpl tensor (a real torch tensor of shape `s ++ [2]` holding interleaved
   real/imaginary parts) is modelled as `CTensor`: the shape `s` with the
   trailing complex-pair axis stripped, together with the row-major flattened
   list of complex entries.  Every shape manipulation from the source is
   translated with the trailing `2` axis left implicit.
 - The process-wide unique table and id counter (`Node.__unique_table`,
   `Node.global_node_id`) become an explicit state value `UT` threaded through
   every operation; a Python `Node` reference is an id into that state
   (`Option Nat`, `none` being the terminal sentinel), since two Python node
   objects are identical exactly when they carry the same id.
 - Recursions over diagrams use an explicit fuel argument; the public wrappers
   supply fuel `id + 1`, which suffices because successor ids are strictly
   smaller than the id of the node created from them.
 - The modules `tdd/CUDAcpl.py` and `tdd/weighted_node.py` are imported by the
   two given source files but are not part of the given material; the
   definitions for them below are modelled from the specification and marked
   as such in their doc comments.
-/

/-- Exact rational scalar: integer numerator over a positive integer
denominator.  Operations keep the denominator positive and never reduce the
fraction, so they are all plain integer arithmetic. -/
structure Frac where
  num : ℤ
  den : ℤ
deriving DecidableEq

/-- Embed an integer as a fraction. -/
def Frac.ofInt (n : ℤ) : Frac := ⟨n, 1⟩

/-- Build a fraction with the sign moved into the numerator. -/
def Frac.mk' (n d : ℤ) : Frac := if d < 0 then ⟨-n, -d⟩ else ⟨n, d⟩

/-- Addition of fractions (no reduction). -/
def Frac.add (a b : Frac) : Frac := ⟨a.num * b.den + b.num * a.den, a.den * b.den⟩

/-- Subtraction of fractions (no reduction). -/
def Frac.sub (a b : Frac) : Frac := ⟨a.num * b.den - b.num * a.den, a.den * b.den⟩

/-- Multiplication of fractions (no reduction). -/
def Frac.mul (a b : Frac) : Frac := ⟨a.num * b.num, a.den * b.den⟩

/-- Division of fractions (no reduction; sign normalised into the numerator). -/
def Frac.div (a b : Frac) : Frac := Frac.mk' (a.num * b.den) (a.den * b.num)

/-- Value-level order on fractions (valid for positive denominators). -/
def Frac.le (a b : Frac) : Bool := decide (a.num * b.den ≤ b.num * a.den)

/-- Value-level strict order on fractions (valid for positive denominators). -/
def Frac.lt (a b : Frac) : Bool := decide (a.num * b.den < b.num * a.den)

/-- Value-level equality on fractions (valid for positive denominators). -/
def Frac.valEq (a b : Frac) : Bool := decide (a.num * b.den = b.num * a.den)

/-- Negation of a fraction. -/
def Frac.neg (a : Frac) : Frac := ⟨-a.num, a.den⟩

/-- Test `|x| ≤ e` at the value level. -/
def Frac.absLe (x e : Frac) : Bool := Frac.le (Frac.neg e) x && Frac.le x e

/-- Floor of a fraction (valid for positive denominators): `Int.fdiv` rounds
toward negative infinity. -/
def Frac.floorZ (a : Frac) : ℤ := Int.fdiv a.num a.den

/-- Round a fraction to the nearest integer, ties to the nearest even integer.
This models both `torch.round` and Python's built-in `round`, which use
banker's rounding. -/
def roundHalfEven (q : Frac) : ℤ :=
  let f := Frac.floorZ q
  let rnum := q.num - f * q.den
  if 2 * rnum < q.den then f
  else if q.den < 2 * rnum then f + 1
  else if f % 2 = 0 then f else f + 1

/-- Complex scalar: real and imaginary part. -/
abbrev Cpl := Frac × Frac

/-- Complex zero. -/
def cplZero : Cpl := (Frac.ofInt 0, Frac.ofInt 0)

/-- Complex one. -/
def cplOne : Cpl := (Frac.ofInt 1, Frac.ofInt 0)

/-- Complex multiplication `(a+bi)(c+di) = (ac-bd) + (ad+bc)i`. -/
def cmul (x y : Cpl) : Cpl :=
  (Frac.sub (Frac.mul x.1 y.1) (Frac.mul x.2 y.2),
   Frac.add (Frac.mul x.1 y.2) (Frac.mul x.2 y.1))

/-- Complex division `(a+bi)/(c+di) = ((ac+bd) + (bc-ad)i) / (c²+d²)`. -/
def cdiv (x y : Cpl) : Cpl :=
  let n := Frac.add (Frac.mul y.1 y.1) (Frac.mul y.2 y.2)
  (Frac.div (Frac.add (Frac.mul x.1 y.1) (Frac.mul x.2 y.2)) n,
   Frac.div (Frac.sub (Frac.mul x.2 y.1) (Frac.mul x.1 y.2)) n)

/-- Product of the entries of a shape list (the element count of a tensor of
that shape). -/
def prodList (s : List Nat) : Nat := s.foldr (fun a b => a * b) 1

/-- Decode a row-major flat index into a multi-index over `shape`. -/
def decodeIdx : List Nat → Nat → List Nat
  | [], _ => []
  | _ :: rest, fi => (fi / prodList rest) :: decodeIdx rest (fi % prodList rest)

/-- Encode a multi-index over `shape` into a row-major flat index. -/
def encodeIdx : List Nat → List Nat → Nat
  | [], _ => 0
  | _ :: _, [] => 0
  | _ :: rest, i :: is => i * prodList rest + encodeIdx rest is

/-- Dense complex tensor in the paired-real CUDAcpl layout, with the trailing
complex-pair axis stripped: the logical shape plus the row-major flattened
entries. -/
structure CTensor where
  shape : List Nat
  data : List Cpl
deriving DecidableEq

/-- Model of torch `.view`: reinterpret the same storage under a new shape
(the source only calls it with matching element counts). -/
def CTensor.view (t : CTensor) (s : List Nat) : CTensor := ⟨s, t.data⟩

/-- Model of torch `.broadcast_to` / `.expand_as` for equal-rank shapes: an
axis of extent 1 in the source shape is replicated to the target extent. -/
def CTensor.broadcastTo (t : CTensor) (s : List Nat) : CTensor :=
  ⟨s, (List.range (prodList s)).map (fun fi =>
      let idx := decodeIdx s fi
      let src := List.zipWith (fun (d : Nat) (i : Nat) => if d = 1 then 0 else i) t.shape idx
      t.data.getD (encodeIdx t.shape src) cplZero)⟩

/-- Model of torch `.stack` (new leading axis): concatenate the storages. -/
def stackT (ts : List CTensor) : CTensor :=
  ⟨ts.length :: (ts.headD ⟨[], []⟩).shape, (ts.map (fun t => t.data)).flatten⟩

/-- Stack a list of equally-shaped tensors along a new axis at position
`axis`. -/
def stackAt (axis : Nat) (ts : List CTensor) : CTensor :=
  let base := (ts.headD ⟨[], []⟩).shape
  let newShape := base.take axis ++ [ts.length] ++ base.drop axis
  ⟨newShape, (List.range (prodList newShape)).map (fun fi =>
     let idx := decodeIdx newShape fi
     let b := idx.getD axis 0
     let inner := idx.take axis ++ idx.drop (axis + 1)
     ((ts.getD b ⟨[], []⟩).data).getD (encodeIdx base inner) cplZero)⟩

/-- Index the leading axis at `k` (torch `t[k]`). -/
def CTensor.idx0 (t : CTensor) (k : Nat) : CTensor :=
  let inner := prodList t.shape.tail
  ⟨t.shape.tail, (t.data.drop (k * inner)).take inner⟩

/-- One-wide slice of axis `axis` at index `k`, keeping the axis
(`t.split(1, axis)[k]`, and `t[..., k:k+1, :]` in stripped form). -/
def CTensor.slice1 (t : CTensor) (axis k : Nat) : CTensor :=
  let newShape := t.shape.set axis 1
  ⟨newShape, (List.range (prodList newShape)).map (fun fi =>
     t.data.getD (encodeIdx t.shape ((decodeIdx newShape fi).set axis k)) cplZero)⟩

/-- Source function `order_inverse` from node.py: the inverse of a permutation
given as a list. -/
def order_inverse (index_order : List Nat) : List Nat :=
  (List.range index_order.length).foldl
    (fun res i => res.set (index_order.getD i 0) i)
    (List.replicate index_order.length 0)

/-- Model of torch `.permute(dims)` (with the implicit trailing complex axis
kept in place, as in the one call site `permute(global_order + [dim-1])`). -/
def CTensor.permuteT (t : CTensor) (dims : List Nat) : CTensor :=
  let newShape := dims.map (fun d => t.shape.getD d 0)
  let inv := order_inverse dims
  ⟨newShape, (List.range (prodList newShape)).map (fun fi =>
     let idx := decodeIdx newShape fi
     t.data.getD (encodeIdx t.shape (inv.map (fun j => idx.getD j 0))) cplZero)⟩

/-- Modelled from the spec: `CUDAcpl.ones(shape)` from the missing module
tdd/CUDAcpl.py — the paired-real constant array representing the complex
scalar 1 broadcast across an arbitrary batch shape. -/
def CUDAcpl_ones (shape : List Nat) : CTensor :=
  ⟨shape, List.replicate (prodList shape) cplOne⟩

/-- Modelled from the spec: the purely elementwise broadcast form of
`CUDAcpl.einsum` from the missing module tdd/CUDAcpl.py — for each element
`(a_r*b_r - a_i*b_i, a_r*b_i + a_i*b_r)`; the call site has already expanded
both operands to the same shape. -/
def CUDAcpl_einsum (a b : CTensor) : CTensor :=
  ⟨a.shape, List.zipWith cmul a.data b.data⟩

/-- Modelled from the spec: `CUDAcpl.np2CUDAcpl` from the missing module
tdd/CUDAcpl.py converts a standard complex array to the paired-real format;
with complex entries modelled directly as pairs this conversion is the
identity. -/
def np2CUDAcpl (t : CTensor) : CTensor := t

/-- Modelled from the spec: `CUDAcpl.CUDAcpl2np` from the missing module
tdd/CUDAcpl.py converts the paired-real format back to a standard complex
array; with complex entries modelled directly as pairs this conversion is the
identity. -/
def CUDAcpl2np (t : CTensor) : CTensor := t

/-- Association-list lookup (models both the Python dict `__unique_table`,
whose keys compare by value with node references comparing by identity, and
the id-to-node heap). -/
def alookup {α β : Type} [DecidableEq α] : List (α × β) → α → Option β
  | [], _ => none
  | (k, v) :: rest, key => if key = k then some v else alookup rest key

/-- Payload of one Python `Node` instance: its `order`, its `out_weights`
tensor of stripped shape `successor count :: batch shape`, and its successor
references (`none` is the terminal sentinel). -/
structure NodeData where
  order : Nat
  out_weights : CTensor
  successors : List (Option Nat)
deriving DecidableEq

/-- Unique-table key: `(order, integer-quantized weights, successor ids)` with
`-1` standing for the terminal sentinel, mirroring the tuple built by
`Node.get_unique_key`. -/
abbrev UKey := Nat × List ℤ × List ℤ

/-- Process-wide mutable state of the Node component: the unique table, the
heap of node instances indexed by id, and the global id counter. -/
structure UT where
  table : List (UKey × Nat)
  nodes : List (Nat × NodeData)
  global_node_id : Nat
deriving DecidableEq

/-- Fresh state: empty table, no nodes, counter 0. -/
def UT.empty : UT := ⟨[], [], 0⟩

namespace Node

/-- Source constant `Node.EPS = 0.000001`. -/
def EPS : Frac := ⟨1, 1000000⟩

/-- Source `Node.get_int_key_long` (the variant wired in as `get_int_key`):
`torch.round(weight/Node.EPS).long().view(-1).tolist()` — quantize every
scalar entry and flatten row-major, the real part of each complex entry
followed by its imaginary part. -/
def get_int_key (weight : CTensor) : List ℤ :=
  (weight.data.map (fun p =>
    [roundHalfEven (Frac.div p.1 EPS), roundHalfEven (Frac.div p.2 EPS)])).flatten

/-- Source `Node.get_unique_key`: the tuple
`[order] + int_key(out_weights) + successors`, successor references compared
by identity, hence by id here, with `-1` for the terminal. -/
def get_unique_key (order : Nat) (out_weights : CTensor)
    (succ_nodes : List (Option Nat)) : UKey :=
  (order, get_int_key out_weights,
   succ_nodes.map (fun s => match s with | none => (-1 : ℤ) | some j => Int.ofNat j))

/-- Source `Node.get_unique_node`: look the key up in the unique table; on a
hit return the existing instance unchanged, otherwise increment the global id
counter, store an owned copy of the weights and successor list under the new
id, insert it into the table and return it. -/
def get_unique_node (order : Nat) (out_weights : CTensor)
    (succ_nodes : List (Option Nat)) (st : UT) : Nat × UT :=
  let temp_key := get_unique_key order out_weights succ_nodes
  match alookup st.table temp_key with
  | some id => (id, st)
  | none =>
    let id := st.global_node_id + 1
    (id, ⟨(temp_key, id) :: st.table, (id, ⟨order, out_weights, succ_nodes⟩) :: st.nodes, id⟩)

/-- Source `Node.reset`: clear the unique table and reset the id counter to 0.
Existing node instances (the heap) are untouched. -/
def reset (st : UT) : UT := ⟨[], st.nodes, 0⟩

/-- Fuel bound for recursions over a diagram: successor ids are strictly
smaller than the id of the node referencing them, so `id + 1` steps reach
every node. -/
def nodeFuel (node : Option Nat) : Nat :=
  match node with
  | none => 1
  | some i => i + 1

/-- Fuel-indexed body of `Node.duplicate`.  Mirrors the source exactly: shift
the order by `init_order`, view the weights to interpose singleton axes for
the extra shapes, broadcast to the extra shapes, and rebuild through the
unique table.  The recursive call on each successor passes
`extra_shape_ahead` but, as in the source (node.py line 149), NOT
`extra_shape_behind`, which therefore reverts to its default `()` below the
root. -/
def dupFuel : Nat → UT → Option Nat → List Nat → Nat → List Nat → List Nat → Option Nat × UT
  | 0, st, _, _, _, _, _ => (none, st)
  | fuel + 1, st, node, parallel_shape, init_order, extra_shape_ahead, extra_shape_behind =>
    match node with
    | none => (none, st)
    | some i =>
      match alookup st.nodes i with
      | none => (none, st)
      | some nd =>
        let order := nd.order + init_order
        let weights := nd.out_weights.view
          ([nd.successors.length] ++ List.replicate extra_shape_ahead.length 1
            ++ parallel_shape ++ List.replicate extra_shape_behind.length 1)
        let weights := weights.broadcastTo
          ([nd.successors.length] ++ extra_shape_ahead ++ parallel_shape ++ extra_shape_behind)
        let folded := nd.successors.foldl
          (fun (acc : List (Option Nat) × UT) successor =>
            let r := dupFuel fuel acc.2 successor parallel_shape init_order extra_shape_ahead []
            (acc.1 ++ [r.1], r.2)) ([], st)
        let g := get_unique_node order weights folded.1 folded.2
        (some g.1, g.2)

/-- Source `Node.duplicate` (with the implicit global state made explicit). -/
def duplicate (st : UT) (node : Option Nat) (parallel_shape : List Nat)
    (init_order : Nat) (extra_shape_ahead extra_shape_behind : List Nat) : Option Nat × UT :=
  dupFuel (nodeFuel node) st node parallel_shape init_order extra_shape_ahead extra_shape_behind

/-- Fuel-indexed body of `Node.__direct_append`: replace every terminal
successor reachable from `a` with `b`, rebuilding each ancestor through the
unique table. -/
def dappFuel : Nat → UT → Option Nat → Option Nat → Option Nat × UT
  | 0, st, _, _ => (none, st)
  | _ + 1, st, none, b => (b, st)
  | fuel + 1, st, some i, b =>
    match alookup st.nodes i with
    | none => (none, st)
    | some nd =>
      let folded := nd.successors.foldl
        (fun (acc : List (Option Nat) × UT) succ =>
          let r := dappFuel fuel acc.2 succ b
          (acc.1 ++ [r.1], r.2)) ([], st)
      let g := get_unique_node nd.order nd.out_weights folded.1 folded.2
      (some g.1, g.2)

/-- Source `Node.__direct_append`. -/
def direct_append (st : UT) (a b : Option Nat) : Option Nat × UT :=
  dappFuel (nodeFuel a) st a b

/-- Source `Node.append`: graft `b` onto every terminal of `a`.  Without
`parallel_tensor`, `b` is duplicated with its own batch shape and its orders
shifted by `depth`; with `parallel_tensor`, `b` is additionally broadcast with
`a`'s batch shape ahead and `a` with `b`'s batch shape behind. -/
def append (st : UT) (a : Option Nat) (parallel_shape_a : List Nat) (depth : Nat)
    (b : Option Nat) (parallel_shape_b : List Nat) (parallel_tensor : Bool) : Option Nat × UT :=
  if !parallel_tensor then
    let m := duplicate st b parallel_shape_b depth [] []
    direct_append m.2 a m.1
  else
    let bb := duplicate st b parallel_shape_b depth parallel_shape_a []
    let ab := duplicate bb.2 a parallel_shape_a 0 [] parallel_shape_b
    direct_append ab.2 ab.1 bb.1

end Node

/-- Label of a rendered vertex: `"1"` for the terminal, `"i" ++ n` for a
non-terminal branching on external axis `n`. -/
inductive VLabel where
  | term : VLabel
  | idx (i : Nat) : VLabel
deriving DecidableEq

/-- Label of a rendered edge: a literal complex value rounded to 2 decimal
digits, a batch-shape list, or a full weight tensor printed as text. -/
inductive ELabel where
  | cplx (re im : Frac) : ELabel
  | shapeLabel (s : List Nat) : ELabel
  | tensorText (t : CTensor) : ELabel
deriving DecidableEq

/-- The graphviz `DotGraph` builder, abstracted to the vertex and edge lists it
accumulates.  Vertex attributes other than id and label are the constants
fontname helvetica / shape circle / color red at every call site and are
omitted; an edge records source id, target id, color, and label. -/
structure DotGraph where
  dnodes : List (ℤ × VLabel)
  dedges : List (ℤ × ℤ × String × ELabel)
deriving DecidableEq

/-- Empty graph builder. -/
def DotGraph.empty : DotGraph := ⟨[], []⟩

/-- Record `dot.node(id, label, ...)`. -/
def DotGraph.addNode (d : DotGraph) (id : ℤ) (label : VLabel) : DotGraph :=
  ⟨d.dnodes ++ [(id, label)], d.dedges⟩

/-- Record `dot.edge(src, tgt, color, label)`. -/
def DotGraph.addEdge (d : DotGraph) (src tgt : ℤ) (color : String) (label : ELabel) : DotGraph :=
  ⟨d.dnodes, d.dedges ++ [(src, tgt, color, label)]⟩

/-- Model of Python `float(x).imag`: the source (node.py line 214) reads the
`.imag` attribute of `node.out_weights[k][1].cpu().item()`, a Python float,
which is always `0.0`. -/
def pyFloatImag (_ : Frac) : Frac := Frac.ofInt 0

/-- Model of Python `round(x, 2)`: the value rounded to 2 decimal digits
(banker's rounding). -/
def pyRound2 (q : Frac) : Frac := ⟨roundHalfEven (Frac.mul q ⟨100, 1⟩), 100⟩

/-- The 4-entry edge color palette of `Node.layout`, indexed by `k mod 4`. -/
def layoutCol (k : Nat) : String := ["red", "blue", "black", "green"].getD (k % 4) "red"

namespace Node

/-- Fuel-indexed body of `Node.layout`: emit a vertex for the current node
(`-1` with label `1` for the terminal), then per branch `k` compute the edge
label (the literal rounded complex value when the weight tensor has no batch
shape, else the batch shape or the full tensor), recurse into the successor
only if it is not yet in the visited list `succ`, and draw the edge in any
case.  The `real_label` flag selects between two identical `dot.node` calls
in the source and has no observable effect. -/
def layoutFuel : Nat → UT → Option Nat → List Nat → List Nat → DotGraph →
    List (Option Nat) → Bool → Bool → DotGraph × List (Option Nat)
  | 0, _, _, _, _, dot, succ, _, _ => (dot, succ)
  | fuel + 1, st, node, parallel_shape, index_order, dot, succ, real_label, full_output =>
    match node with
    | none => (dot.addNode (-1) VLabel.term, succ)
    | some i =>
      match alookup st.nodes i with
      | none => (dot, succ)
      | some nd =>
        let dot := dot.addNode (Int.ofNat i) (VLabel.idx (index_order.getD nd.order 0))
        (List.range nd.successors.length).foldl
          (fun (acc : DotGraph × List (Option Nat)) k =>
            let wk := nd.out_weights.data.getD k cplZero
            let label1 : ELabel :=
              if nd.out_weights.shape.tail = [] then
                ELabel.cplx (pyRound2 wk.1) (pyRound2 (pyFloatImag wk.2))
              else if full_output then ELabel.tensorText (CUDAcpl2np (nd.out_weights.idx0 k))
              else ELabel.shapeLabel parallel_shape
            let temp := nd.successors.getD k none
            let tgt : ℤ := match temp with | none => -1 | some j => Int.ofNat j
            if acc.2.contains temp then
              (acc.1.addEdge (Int.ofNat i) tgt (layoutCol k) label1, acc.2)
            else
              let r := layoutFuel fuel st temp parallel_shape index_order acc.1 acc.2
                real_label full_output
              (r.1.addEdge (Int.ofNat i) tgt (layoutCol k) label1, r.2 ++ [temp]))
          (dot, succ)

/-- Source `Node.layout` (with explicit state, graph builder, and visited
list, which the source shares through mutable default arguments). -/
def layout (st : UT) (node : Option Nat) (parallel_shape index_order : List Nat)
    (dot : DotGraph) (succ : List (Option Nat)) (real_label full_output : Bool) :
    DotGraph × List (Option Nat) :=
  layoutFuel (nodeFuel node) st node parallel_shape index_order dot succ real_label full_output

end Node


/-- Raw, not-yet-canonical node as built by `TDD.__as_tensor_iterate`
(`Node(0, depth, out_weights, succ_nodes)`: the id 0 is a placeholder). -/
structure RawNode where
  order : Nat
  out_weights : CTensor
  successors : List (Option Nat)
deriving DecidableEq

/-- First branch weight of non-negligible magnitude (squared magnitude above
`EPS²`), or complex 1 when every branch is negligible. -/
def firstNonNegligible (ws : List Cpl) : Cpl :=
  match ws.find? (fun w =>
    Frac.lt (Frac.mul Node.EPS Node.EPS)
      (Frac.add (Frac.mul w.1 w.1) (Frac.mul w.2 w.2))) with
  | some w => w
  | none => cplOne

/-- Modelled from the spec: `weighted_node.normalized` from the missing module
tdd/weighted_node.py.  Per the spec it factors a per-batch-instance scalar out
of the raw node's `out_weights` so the stored weights become the canonical
reduced form, multiplies the dangling weight by that factor, and only then
registers the node through `get_unique_node`.  The divisor policy, left open
by the spec, is the one it suggests: per batch instance, the first branch
weight of non-negligible magnitude, with complex 1 (no rescaling) when all
branches are negligible.  The variant flag is unobservable in the given
material and is ignored. -/
def weighted_node_normalized (st : UT) (raw : RawNode) (dangle_weights : CTensor)
    (_variant : Bool) : Option Nat × CTensor × UT :=
  let k := raw.successors.length
  let bs := prodList (raw.out_weights.shape.drop 1)
  let divisors : List Cpl := (List.range bs).map (fun β =>
    firstNonNegligible ((List.range k).map (fun j =>
      raw.out_weights.data.getD (j * bs + β) cplZero)))
  let new_weights : CTensor := ⟨raw.out_weights.shape,
    (List.range (k * bs)).map (fun fi =>
      cdiv (raw.out_weights.data.getD fi cplZero) (divisors.getD (fi % bs) cplOne))⟩
  let new_dangle : CTensor := ⟨dangle_weights.shape,
    (List.range bs).map (fun β =>
      cmul (dangle_weights.data.getD β cplZero) (divisors.getD β cplOne))⟩
  let g := Node.get_unique_node raw.order new_weights raw.successors st
  (some g.1, new_dangle, g.2)

/-- Scale a tensor elementwise by a weight tensor that indexes only the
leading (batch) axes, replicating the weight across the trailing data axes. -/
def scaleBy (w r : CTensor) : CTensor :=
  ⟨r.shape, (List.range (prodList r.shape)).map (fun fi =>
     let idx := decodeIdx r.shape fi
     cmul (w.data.getD (encodeIdx w.shape (idx.take w.shape.length)) cplZero)
          (r.data.getD fi cplZero))⟩

/-- Modelled from the spec: `weighted_node.to_CUDAcpl_Tensor` from the missing
module tdd/weighted_node.py — dense expansion of a `(node, weight)` pair.  For
an absent node the weight itself is returned (the empty remaining-shape case);
for a node, each successor is expanded recursively with the shape reduced by
one axis and its own branch weight as the carried weight, the branch results
are stacked along a new axis (placed after the batch axes carried by the
weight, so that the result keeps batch axes leading), and the carried weight
is applied as an overall scale factor. -/
def to_CUDAcpl_Tensor : Nat → UT → Option Nat → CTensor → List Nat → CTensor
  | _, _, none, weight, _ => weight
  | 0, _, some _, weight, _ => weight
  | fuel + 1, st, some i, weight, shape =>
    match alookup st.nodes i with
    | none => weight
    | some nd =>
      let branches := (List.range nd.successors.length).map (fun k =>
        to_CUDAcpl_Tensor fuel st (nd.successors.getD k none)
          (nd.out_weights.idx0 k) shape.tail)
      scaleBy weight (stackAt weight.shape.length branches)

/-- The TDD facade value: an overall weight tensor (its stripped shape is the
parallel/batch shape), the logical data shape, the root node reference, and
the index-order permutation. -/
structure TDD where
  weights : CTensor
  data_shape : List Nat
  node : Option Nat
  index_order : List Nat
deriving DecidableEq

/-- Input accepted by `TDD.as_tensor`: a bare tensor, or the triple
`(tensor, parallel_shape, index_order)`. -/
inductive TDDInput where
  | plain (tensor : CTensor) : TDDInput
  | triple (tensor : CTensor) (parallel_shape : List Nat) (index_order : List Nat) : TDDInput

namespace TDD

/-- Source property `TDD.parallel_shape`: `weights.shape[:-1]`, which in the
stripped representation is the whole weight shape. -/
def parallel_shape (t : TDD) : List Nat := t.weights.shape

/-- Source property `TDD.global_order`: the identity on the parallel axes
followed by the data axes shifted by the number of parallel axes. -/
def global_order (t : TDD) : List Nat :=
  List.range t.parallel_shape.length
    ++ t.index_order.map (fun o => o + t.parallel_shape.length)

/-- Source `TDD.__as_tensor_iterate`, fuel-indexed on the number of data axes
still to split.  At `depth = number of data axes` the remaining tensor (all
data axes already one wide) is wrapped as a terminal TDD carrying the sliced
weights; otherwise the tensor is split one-wide along data axis
`index_order[depth]`, children are built recursively, their weights are
stacked, and the raw node is normalized and interned. -/
def as_tensor_iterate : Nat → UT → CTensor → List Nat → List Nat → Nat → TDD × UT
  | fuel, st, tensor, parallel_shape, index_order0, depth =>
    let data_shape := tensor.shape.drop parallel_shape.length
    let index_order := if index_order0 = [] then List.range data_shape.length else index_order0
    if depth = data_shape.length then
      let weights := if data_shape.length = 0 then tensor
        else (tensor.slice1 (tensor.shape.length - 1) 0).view parallel_shape
      (⟨weights, [], none, []⟩, st)
    else
      match fuel with
      | 0 => (⟨tensor, [], none, []⟩, st)
      | fuel + 1 =>
        let split_pos := index_order.getD depth 0
        let axis := parallel_shape.length + split_pos
        let folded := (List.range (data_shape.getD split_pos 0)).foldl
          (fun (acc : List TDD × UT) k =>
            let r := as_tensor_iterate fuel acc.2 (tensor.slice1 axis k)
              parallel_shape index_order (depth + 1)
            (acc.1 ++ [r.1], r.2)) ([], st)
        let succ_nodes := folded.1.map (fun item => item.node)
        let out_weights := stackT (folded.1.map (fun item => item.weights))
        let temp_node : RawNode := ⟨depth, out_weights, succ_nodes⟩
        let dangle_weights := CUDAcpl_ones (out_weights.shape.drop 1)
        let n := weighted_node_normalized folded.2 temp_node dangle_weights false
        (⟨n.2.1, [], n.1, []⟩, n.2.2)

/-- Source `TDD.as_tensor`: unpack the input (a bare tensor gets empty
parallel shape and index order), default an empty index order to the identity,
raise when the index-order length does not match the number of data axes, and
otherwise build the diagram and record the resolved index order and data
shape. -/
def as_tensor (data : TDDInput) (st : UT) : Except String (TDD × UT) :=
  let p := match data with
    | TDDInput.plain tensor => (np2CUDAcpl tensor, ([] : List Nat), ([] : List Nat))
    | TDDInput.triple tensor ps io => (np2CUDAcpl tensor, ps, io)
  let tensor := p.1
  let parallel_shape := p.2.1
  let index_order := p.2.2
  let data_shape := tensor.shape.drop parallel_shape.length
  let result_index_order :=
    if index_order = [] then List.range data_shape.length else index_order
  if data_shape.length ≠ result_index_order.length then
    Except.error "The number of indices must match that provided by tensor."
  else
    let r := as_tensor_iterate data_shape.length st tensor parallel_shape result_index_order 0
    Except.ok (⟨r.1.weights, data_shape, r.1.node, result_index_order⟩, r.2)

/-- Source `TDD.CUDAcpl`: reconstruct the dense tensor in construction order,
permute it into the external order, and scale it elementwise by the overall
weights expanded across the data axes. -/
def CUDAcpl (st : UT) (t : TDD) : CTensor :=
  let trival_ordered_data_shape :=
    (order_inverse t.index_order).map (fun i => t.data_shape.getD i 0)
  let node_data := to_CUDAcpl_Tensor (Node.nodeFuel t.node) st t.node t.weights
    trival_ordered_data_shape
  let node_data := node_data.permuteT t.global_order
  let expanded_weights := t.weights.view
    (t.parallel_shape ++ List.replicate t.data_shape.length 1)
  let expanded_weights := expanded_weights.broadcastTo node_data.shape
  CUDAcpl_einsum node_data expanded_weights

/-- Source `TDD.numpy`: the dense reconstruction converted to a standard
complex array. -/
def numpy (st : UT) (t : TDD) : CTensor := CUDAcpl2np (TDD.CUDAcpl st t)

end TDD

/-- Elementwise approximate equality of two dense complex tensors: same shape,
same entry count, and every pair of entries within `eps` in both the real and
the imaginary part. -/
def cplApprox (a b : CTensor) (eps : Frac) : Bool :=
  a.shape == b.shape && a.data.length == b.data.length &&
  (a.data.zip b.data).all (fun pq =>
    Frac.absLe (Frac.sub pq.1.1 pq.2.1) eps && Frac.absLe (Frac.sub pq.1.2 pq.2.2) eps)

/-- Whether an `Except` result is a success. -/
def exceptIsOk {ε α : Type} : Except ε α → Bool
  | Except.ok _ => true
  | Except.error _ => false

/-- Well-formedness of one stored node with respect to the state and a common
batch shape `bs`: it is registered in the unique table under its own key, its
weight tensor has stripped shape `successor count :: bs` with a matching entry
count, and every successor id is smaller than its own id and present in the
heap. Every state actually produced by `get_unique_node` satisfies this for
the batch shape its diagrams were built with. -/
def WFnode (st : UT) (bs : List Nat) (i : Nat) (nd : NodeData) : Bool :=
  (alookup st.table (Node.get_unique_key nd.order nd.out_weights nd.successors) == some i) &&
  (nd.out_weights.shape == nd.successors.length :: bs) &&
  (nd.out_weights.data.length == prodList (nd.successors.length :: bs)) &&
  nd.successors.all (fun s =>
    match s with
    | none => true
    | some j => decide (j < i) && (alookup st.nodes j).isSome)

/-- Well-formedness of a whole state with respect to a batch shape. -/
def WFb (st : UT) (bs : List Nat) : Bool :=
  st.nodes.all (fun p => WFnode st bs p.1 p.2)

/-- Complex imaginary unit. -/
def cplI : Cpl := (Frac.ofInt 0, Frac.ofInt 1)

/-- The dense 2×2 identity tensor `[[1,0],[0,1]]`. -/
def idTensor2 : CTensor := ⟨[2, 2], [cplOne, cplZero, cplZero, cplOne]⟩

/-- Import the 2×2 identity into a diagram from a fresh state, export it back
to a dense complex array, and compare with the input within `EPS`. -/
def c1RoundTrip : Bool :=
  match TDD.as_tensor (TDDInput.plain idTensor2) UT.empty with
  | Except.ok r => cplApprox (TDD.numpy r.2 r.1) idTensor2 Node.EPS
  | Except.error _ => false

/-- Weight vector for the C2 witness: the exact scalar 1. -/
def hcW1 : CTensor := ⟨[1], [cplOne]⟩

/-- Weight vector for the C2 witness: `1 + 10⁻⁷`, numerically distinct from 1
but quantizing to the same integer key under `EPS = 10⁻⁶`. -/
def hcW2 : CTensor := ⟨[1], [(⟨10000001, 10000000⟩, Frac.ofInt 0)]⟩

/-- Branch-weight vector `[1, 1]` used by the C4 failing input. -/
def dupW2 : CTensor := ⟨[2], [cplOne, cplOne]⟩

/-- State holding the C4 failing input: node 1 (order 1, two terminal
branches) below node 2 (order 0, both branches to node 1). -/
def dupStB : UT :=
  (Node.get_unique_node 0 dupW2 [some 1, some 1]
    (Node.get_unique_node 1 dupW2 [none, none] UT.empty).2).2

/-- Run of `duplicate` on the C4 failing input: root node 2, empty batch
shape, `init_order = 0`, no extra shape ahead, extra shape `[5]` behind. -/
def dupRes : Option Nat × UT := Node.duplicate dupStB (some 2) [] 0 [] [5]

/-- Weights of batch shape `[3]` for the C3 failing input. -/
def appW23 : CTensor := ⟨[2, 3], List.replicate 6 cplOne⟩

/-- Weights of batch shape `[5]` for the C3 failing input. -/
def appW25 : CTensor := ⟨[2, 5], List.replicate 10 cplOne⟩

/-- State holding the C3 failing input: diagram `a` of depth 2 with batch
shape `[3]` (root node 2 over node 1), and diagram `b` of depth 1 with batch
shape `[5]` (node 3). -/
def appStC : UT :=
  (Node.get_unique_node 0 appW25 [none, none]
    (Node.get_unique_node 0 appW23 [some 1, some 1]
      (Node.get_unique_node 1 appW23 [none, none] UT.empty).2).2).2

/-- Run of `append` on the C3 failing input with `tensor_batches = true`:
`append(a, [3], 2, b, [5], parallel_tensor=True)`. -/
def appRes : Option Nat × UT := Node.append appStC (some 2) [3] 2 (some 3) [5] true

/-- State holding the C7/C8 scenario: one node (id 1, order 0) with two
terminal successors of branch weights `1+0j` and `0+1j` and no batch shape. -/
def layoutSt : UT :=
  (Node.get_unique_node 0 ⟨[2], [cplOne, cplI]⟩ [none, none] UT.empty).2

/-- Run of `layout` on the C7/C8 scenario from a fresh graph builder and an
empty visited list. -/
def layoutRes : DotGraph × List (Option Nat) :=
  Node.layout layoutSt (some 1) [] [0] DotGraph.empty [] true false

/-- State for the C9 witness: a single registered node with two terminal
successors and no batch shape. -/
def dupIdSt : UT :=
  (Node.get_unique_node 0 ⟨[2], [cplOne, cplI]⟩ [none, none] UT.empty).2

theorem alookup_cons_self {α β : Type} [DecidableEq α] (k : α) (v : β) (l : List (α × β)) :
    alookup ((k, v) :: l) k = some v := by
  simp [alookup]

theorem alookup_mem {α β : Type} [DecidableEq α] {l : List (α × β)} {k : α} {v : β}
    (h : alookup l k = some v) : (k, v) ∈ l := by
  induction l with
  | nil => simp [alookup] at h
  | cons p rest ih =>
    obtain ⟨a, b⟩ := p
    by_cases hk : k = a
    · subst hk
      simp [alookup] at h
      subst h
      exact List.mem_cons_self _ _
    · simp [alookup, hk] at h
      exact List.mem_cons_of_mem _ (ih h)

/-- C6: after creating any number of nodes, `Node.reset` leaves the unique
table empty and the id counter at 0 while touching nothing else (the heap of
already-created instances survives), and the next node created through
`get_unique_node` receives id 1.  In the embedding `reset` is a pure state
transformer, reflecting that the source returns no value. -/
theorem C6_reset_semantics (st : UT) (o : Nat) (w : CTensor) (s : List (Option Nat)) :
    Node.reset st = ⟨[], st.nodes, 0⟩ ∧
    (Node.get_unique_node o w s (Node.reset st)).1 = 1 :=
  ⟨rfl, rfl⟩

/-- C2: two calls to `get_unique_node` with the same order, out-weights
quantizing to the same integer key under `EPS`, and the identical successor
list return the same node id, the second call leaves the state (table, heap
and id counter) completely unchanged, and when the key was not yet in the
table the first call increments the global id counter. -/
theorem C2_hashcons (st : UT) (o : Nat) (w w' : CTensor) (s : List (Option Nat))
    (h : Node.get_int_key w = Node.get_int_key w') :
    (Node.get_unique_node o w' s (Node.get_unique_node o w s st).2).1
        = (Node.get_unique_node o w s st).1 ∧
    (Node.get_unique_node o w' s (Node.get_unique_node o w s st).2).2
        = (Node.get_unique_node o w s st).2 ∧
    (alookup st.table (Node.get_unique_key o w s) = none →
      (Node.get_unique_node o w s st).2.global_node_id = st.global_node_id + 1) := by
  have hkey : Node.get_unique_key o w' s = Node.get_unique_key o w s := by
    unfold Node.get_unique_key
    rw [h]
  unfold Node.get_unique_node
  rw [hkey]
  cases hc : alookup st.table (Node.get_unique_key o w s) with
  | some id => simp [hc]
  | none => simp [hc, alookup_cons_self]

/-- Closed witness for C2: the weights 1 and 1 + 10⁻⁷ differ numerically but
share the integer key, and the two calls starting from the empty state return
the same id, leave the state of the first call unchanged, and only the first
call increments the counter. -/
theorem C2_hashcons_witness :
    Node.get_int_key hcW1 = Node.get_int_key hcW2 ∧
    (Node.get_unique_node 0 hcW2 [none] (Node.get_unique_node 0 hcW1 [none] UT.empty).2).1
        = (Node.get_unique_node 0 hcW1 [none] UT.empty).1 ∧
    (Node.get_unique_node 0 hcW2 [none] (Node.get_unique_node 0 hcW1 [none] UT.empty).2).2
        = (Node.get_unique_node 0 hcW1 [none] UT.empty).2 ∧
    (Node.get_unique_node 0 hcW1 [none] UT.empty).2.global_node_id
        = UT.empty.global_node_id + 1 := by
  have h : Node.get_int_key hcW1 = Node.get_int_key hcW2 := by decide
  have main := C2_hashcons UT.empty 0 hcW1 hcW2 [none] h
  exact ⟨h, main.1, main.2.1, main.2.2 (by decide)⟩

/-- C1: importing the dense 2×2 identity tensor `[[1,0],[0,1]]` with
`as_tensor` and exporting it back with `numpy` reproduces the tensor
elementwise within `EPS = 10⁻⁶` (here in fact exactly). -/
theorem C1_roundtrip : c1RoundTrip = true := rfl

/-- Counterexample for C5: for the triple input with the 2×2 identity tensor,
no batch shape and the empty index order, the supplied index-order length (0)
differs from the number of data axes (2), yet `as_tensor` succeeds instead of
raising, because an empty index order is replaced by the identity default
before the length check. -/
theorem C5_counterexample :
    ([] : List Nat).length ≠ (idTensor2.shape.drop ([] : List Nat).length).length ∧
    exceptIsOk (TDD.as_tensor (TDDInput.triple idTensor2 [] []) UT.empty) = true :=
  ⟨by decide, rfl⟩

/-- C5 (amended): `as_tensor` on a triple raises exactly when the supplied
index order is non-empty and its length differs from the number of data axes;
an empty index order always defaults to the identity order and the import
succeeds without raising. -/
theorem C5_amended_raise_iff (t : CTensor) (ps io : List Nat) (st : UT) :
    exceptIsOk (TDD.as_tensor (TDDInput.triple t ps io) st) = false ↔
      io ≠ [] ∧ io.length ≠ (t.shape.drop ps.length).length := by
  unfold TDD.as_tensor
  by_cases hio : io = []
  · subst hio
    simp [np2CUDAcpl, exceptIsOk]
  · by_cases hlen : (t.shape.drop ps.length).length = io.length
    · simp [np2CUDAcpl, hio, hlen, exceptIsOk]
    · simp only [List.length_drop] at hlen
      simp [np2CUDAcpl, hio, hlen, exceptIsOk, List.length_drop]
      omega

/-- Evaluation of the C4 failing input: duplicating the two-level diagram
rooted at node 2 with empty batch shape and extra shape `[5]` behind rebuilds
the root (new node 3) with weights broadcast to stripped shape `[2, 5]`, but
its child is the original node 1 whose weights keep shape `[2]` — the claimed
shape `[2, 5]` is not produced below the root, because the recursive call in
the source drops `extra_shape_behind`. -/
theorem C4_duplicate_behind_dropped :
    dupRes.1 = some 3 ∧
    (alookup dupRes.2.nodes 3).map (fun nd => (nd.out_weights.shape, nd.successors))
      = some ([2, 5], [some 1, some 1]) ∧
    (alookup dupRes.2.nodes 1).map (fun nd => nd.out_weights.shape) = some [2] ∧
    (([2] : List Nat) = [2, 5]) = False :=
  ⟨rfl, rfl, rfl, by simp⟩

/-- Evaluation of the C3 failing input: appending diagram `b` (batch `[5]`)
onto the depth-2 diagram `a` (batch `[3]`) with `tensor_batches = true`
produces root node 7 with batch shape `[3, 5]` whose child node 6 carries
batch shape `[3]` only (stripped weight shape `[2, 3]` instead of the claimed
`[2, 3, 5]`), because `a`'s non-root nodes lose the behind-broadcast. -/
theorem C3_append_inner_batch_shape :
    appRes.1 = some 7 ∧
    (alookup appRes.2.nodes 7).map (fun nd => (nd.out_weights.shape, nd.successors))
      = some ([2, 3, 5], [some 6, some 6]) ∧
    (alookup appRes.2.nodes 6).map (fun nd => nd.out_weights.shape) = some [2, 3] ∧
    (([2, 3] : List Nat) = [2, 3, 5]) = False :=
  ⟨rfl, rfl, rfl, by simp⟩

/-- Evaluation of the C7 failing input: on the node with branch weights
`1+0j` and `0+1j` and no batch shape, the branch-1 edge is colored blue but
labeled with the complex value 0 (both parts zero after rounding), although
the stored imaginary part of that branch weight is 1 and the claimed label
value would be `0+1j`: the source reads `.imag` of a Python float, which is
always `0.0`. -/
theorem C7_layout_imag_label_zero :
    layoutRes.1.dedges.getD 1 (0, 0, "", ELabel.shapeLabel [])
      = (1, -1, "blue", ELabel.cplx ⟨0, 100⟩ ⟨0, 100⟩) ∧
    (alookup layoutSt.nodes 1).map (fun nd => (nd.out_weights.data.getD 1 cplZero).2)
      = some (Frac.ofInt 1) ∧
    Frac.valEq ⟨0, 100⟩ (pyRound2 (Frac.ofInt 1)) = false :=
  ⟨rfl, rfl, by decide⟩

/-- Counterexample for C8: the layout run on the node with two terminal
successors emits 2 vertices, not 3 — the node itself and the single shared
terminal vertex. -/
theorem C8_counterexample : layoutRes.1.dnodes.length ≠ 3 := by decide

/-- C8 (amended): the layout run on a node with two terminal successors
(branch weights `1+0j` and `0+1j`, no batch shape) emits exactly 2 vertices
(the node itself, then the single shared terminal vertex `-1`, deduplicated
via the visited list) and exactly 2 edges, both into the terminal vertex, the
branch-0 edge red and the branch-1 edge blue. -/
theorem C8_amended_counts :
    layoutRes.1.dnodes.map (fun p => p.1) = [1, -1] ∧
    layoutRes.1.dnodes.length = 2 ∧
    layoutRes.1.dedges.map (fun e => (e.1, e.2.1, e.2.2.1)) = [(1, -1, "red"), (1, -1, "blue")] ∧
    layoutRes.1.dedges.length = 2 :=
  ⟨rfl, rfl, rfl, rfl⟩

theorem prodList_cons (d : Nat) (rest : List Nat) :
    prodList (d :: rest) = d * prodList rest := rfl

theorem encode_decode (s : List Nat) :
    ∀ fi, fi < prodList s → encodeIdx s (decodeIdx s fi) = fi := by
  induction s with
  | nil =>
    intro fi h
    simp [prodList] at h
    simp [decodeIdx, encodeIdx, h]
  | cons d rest ih =>
    intro fi h
    have hp : 0 < prodList rest := by
      rcases Nat.eq_zero_or_pos (prodList rest) with h0 | h0
      · rw [prodList_cons, h0, Nat.mul_zero] at h
        omega
      · exact h0
    simp only [decodeIdx, encodeIdx]
    rw [ih _ (Nat.mod_lt _ hp), Nat.mul_comm (fi / prodList rest) (prodList rest)]
    exact Nat.div_add_mod fi (prodList rest)

theorem zipWith_one_decode (s : List Nat) :
    ∀ fi, fi < prodList s →
      List.zipWith (fun (d : Nat) (i : Nat) => if d = 1 then 0 else i) s (decodeIdx s fi)
        = decodeIdx s fi := by
  induction s with
  | nil => intro fi _; simp [decodeIdx]
  | cons d rest ih =>
    intro fi h
    have hp : 0 < prodList rest := by
      rcases Nat.eq_zero_or_pos (prodList rest) with h0 | h0
      · rw [prodList_cons, h0, Nat.mul_zero] at h
        omega
      · exact h0
    simp only [decodeIdx, List.zipWith_cons_cons]
    rw [ih _ (Nat.mod_lt _ hp)]
    by_cases hd : d = 1
    · subst hd
      rw [prodList_cons, Nat.one_mul] at h
      simp [Nat.div_eq_of_lt h]
    · simp [hd]

theorem map_range_getD {α : Type} (l : List α) (dflt : α) :
    (List.range l.length).map (fun fi => l.getD fi dflt) = l := by
  induction l with
  | nil => rfl
  | cons x xs ih =>
    rw [List.length_cons, List.range_succ_eq_map, List.map_cons, List.map_map]
    simp only [List.getD_cons_zero, Function.comp_def, Nat.succ_eq_add_one,
      List.getD_cons_succ]
    rw [ih]

theorem broadcastTo_self (t : CTensor) (h : t.data.length = prodList t.shape) :
    t.broadcastTo t.shape = t := by
  obtain ⟨s, d⟩ := t
  simp only at h
  unfold CTensor.broadcastTo
  simp only [CTensor.mk.injEq, true_and]
  have hcong : ∀ fi ∈ List.range (prodList s),
      (fun fi =>
        d.getD (encodeIdx s
          (List.zipWith (fun (dd : Nat) (i : Nat) => if dd = 1 then 0 else i) s
            (decodeIdx s fi))) cplZero) fi
        = (fun fi => d.getD fi cplZero) fi := by
    intro fi hfi
    rw [List.mem_range] at hfi
    simp only
    rw [zipWith_one_decode _ _ hfi, encode_decode _ _ hfi]
  rw [List.map_congr_left hcong, ← h, map_range_getD]

theorem foldl_collect_id {α : Type} (f : UT → α → α × UT) (st : UT) :
    ∀ (l : List α), (∀ s ∈ l, f st s = (s, st)) →
    ∀ acc : List α,
      l.foldl (fun (p : List α × UT) s => (p.1 ++ [(f p.2 s).1], (f p.2 s).2)) (acc, st)
        = (acc ++ l, st) := by
  intro l
  induction l with
  | nil => intro _ acc; simp
  | cons x xs ih =>
    intro h acc
    have hx := h x (List.mem_cons_self x xs)
    simp only [List.foldl_cons, hx]
    rw [ih (fun s hs => h s (List.mem_cons_of_mem x hs)) (acc ++ [x])]
    simp

theorem dupFuel_registered (bs : List Nat) :
    ∀ fuel st i nd, WFb st bs = true → alookup st.nodes i = some nd → i < fuel →
      Node.dupFuel fuel st (some i) bs 0 [] [] = (some i, st) := by
  intro fuel
  induction fuel with
  | zero =>
    intro st i nd _ _ hi
    omega
  | succ fuel ih =>
    intro st i nd hWF hlook hi
    have hmem : (i, nd) ∈ st.nodes := alookup_mem hlook
    have hnode : WFnode st bs i nd = true := by
      have := (List.all_eq_true.mp hWF) (i, nd) hmem
      simpa using this
    simp only [WFnode, Bool.and_eq_true, beq_iff_eq, List.all_eq_true] at hnode
    obtain ⟨⟨⟨htab, hshape⟩, hlen⟩, hsucc⟩ := hnode
    have hstep : ∀ s ∈ nd.successors, Node.dupFuel fuel st s bs 0 [] [] = (s, st) := by
      intro s hs
      cases s with
      | none => cases fuel <;> rfl
      | some j =>
        have hj := hsucc (some j) hs
        simp only [Bool.and_eq_true, decide_eq_true_eq, Option.isSome_iff_exists] at hj
        obtain ⟨hji, ndj, hjl⟩ := hj
        exact ih st j ndj hWF hjl (by omega)
    have hview : nd.out_weights.view
        ([nd.successors.length] ++ List.replicate (List.length ([] : List Nat)) 1
          ++ bs ++ List.replicate (List.length ([] : List Nat)) 1) = nd.out_weights := by
      simp only [List.length_nil, List.replicate_zero, List.append_nil, List.nil_append,
        List.singleton_append]
      unfold CTensor.view
      rw [← hshape]
    have hfold := foldl_collect_id (fun st' s => Node.dupFuel fuel st' s bs 0 [] []) st
      nd.successors hstep []
    show Node.dupFuel (fuel + 1) st (some i) bs 0 [] [] = (some i, st)
    unfold Node.dupFuel
    simp only [hlook]
    rw [hview]
    have hbc : nd.out_weights.broadcastTo
        ([nd.successors.length] ++ ([] : List Nat) ++ bs ++ ([] : List Nat))
          = nd.out_weights := by
      simp only [List.append_nil, List.nil_append, List.singleton_append]
      rw [← hshape]
      exact broadcastTo_self _ (by rw [hshape]; exact hlen)
    rw [hbc]
    simp only at hfold
    rw [hfold]
    simp only [List.nil_append, Nat.add_zero]
    unfold Node.get_unique_node
    simp only [htab]

/-- C9: for every node `n` registered in the unique table of a well-formed
state, duplicating `n` with batch shape equal to the diagram's own batch
shape, `init_order = 0`, and empty extra shapes returns the identical node
instance (the same id) and leaves the state untouched — the rebuilt key
coincides with the original's at every level. -/
theorem C9_identity_duplication (st : UT) (bs : List Nat) (i : Nat) (nd : NodeData)
    (hWF : WFb st bs = true) (hlook : alookup st.nodes i = some nd) :
    Node.duplicate st (some i) bs 0 [] [] = (some i, st) :=
  dupFuel_registered bs (i + 1) st i nd hWF hlook (Nat.lt_succ_self i)

/-- Closed witness for C9: the state holding one registered node with two
terminal successors and no batch shape is well-formed, and duplicating that
node with empty batch shape and zero order shift returns it unchanged. -/
theorem C9_identity_duplication_witness :
    WFb dupIdSt [] = true ∧
    Node.duplicate dupIdSt (some 1) [] 0 [] [] = (some 1, dupIdSt) := by
  have hWF : WFb dupIdSt [] = true := by decide
  exact ⟨hWF, C9_identity_duplication dupIdSt [] 1 ⟨0, ⟨[2], [cplOne, cplI]⟩, [none, none]⟩
    hWF (by decide)⟩
